import Mathlib

/-!
Verification of the cyw43439 gSPI bus driver.

The driver converts register reads and writes into 32-bit gSPI command
words, exchanges them over a serial transport, and performs the power-up
handshake.  The definitions below are a shallow embedding of the Go
source: machine integers become naturals with explicit reductions modulo
powers of two where the source can overflow, byte buffers become lists of
naturals, and the external SPI transport becomes an explicit oracle
argument.
-/

namespace Cyw43439

/-! ## Command codec (source: make_cmd, b2u32) -/

/-- Embedding of b2u32: one when the flag holds, zero otherwise. -/
def b2u32 (b : Bool) : Nat := if b then 1 else 0

/-- Embedding of make_cmd: packs write flag, increment flag, function,
address (masked to 17 bits) and size into one 32-bit command word.
All Go operands are uint32; only the function shift can overflow 32 bits,
hence the explicit reduction of that term. -/
def make_cmd (write inc : Bool) (fn addr sz : Nat) : Nat :=
  b2u32 write <<< 31 ||| b2u32 inc <<< 30 ||| (fn <<< 28) % 2 ^ 32 |||
    (addr &&& 0x1ffff) <<< 11 ||| sz

/-- Bit 31 of a command word. -/
def cmdWriteBit (c : Nat) : Nat := c >>> 31 &&& (2 ^ 1 - 1)

/-- Bit 30 of a command word. -/
def cmdIncBit (c : Nat) : Nat := c >>> 30 &&& (2 ^ 1 - 1)

/-- Bits 28 and 29 of a command word. -/
def cmdFn (c : Nat) : Nat := c >>> 28 &&& (2 ^ 2 - 1)

/-- Bits 11 to 27 of a command word. -/
def cmdAddr (c : Nat) : Nat := c >>> 11 &&& (2 ^ 17 - 1)

/-- Bits 0 to 10 of a command word. -/
def cmdSize (c : Nat) : Nat := c &&& (2 ^ 11 - 1)

/-! ## Register access layer (source: readReg, writeReg) -/

/-- Source constant: the function space that receives backplane read padding
and write bookkeeping.  In this source file it is the untyped constant 0,
which coincides with FuncAllSPIRegisters (bus space). -/
def backplaneFunction : Nat := 0

/-- Source constant: fixed backplane read padding in bytes. -/
def whdBusSPIBackplaneReadPadding : Nat := 4

/-- Source constant FuncAllSPIRegisters: the bus function space. -/
def FuncAllSPIRegisters : Nat := 0

/-- Padding computed by readReg: 4 extra bytes exactly for the backplane
function constant, otherwise none. -/
def readPadding (fn : Nat) : Nat :=
  if fn = backplaneFunction then whdBusSPIBackplaneReadPadding else 0

/-- The observable request of one readReg call: the command word sent and
the number of response bytes clocked in. -/
structure ReadRequest where
  cmd : Nat
  nbytes : Nat
deriving DecidableEq

/-- Embedding of the request side of readReg: the command is sized
size + padding, while the response buffer handed to the transport is
buf[0:4+padding], independent of size. -/
def readRegRequest (fn reg size : Nat) : ReadRequest :=
  { cmd := make_cmd false true fn reg (size + readPadding fn)
    nbytes := 4 + readPadding fn }

/-- Little-endian 32-bit load of the first four bytes of a buffer, with
missing bytes read as zero exactly as the zero-initialised Go scratch
buffer provides them. -/
def leUint32 (bs : List Nat) : Nat :=
  bs.getD 0 0 + bs.getD 1 0 * 2 ^ 8 + bs.getD 2 0 * 2 ^ 16 + bs.getD 3 0 * 2 ^ 24

/-- Embedding of readReg over a transport oracle mapping a command word and
a response length to an optional byte list (none models a transport error).
The returned value is binary.LittleEndian.Uint32 of buf[0:4]. -/
def readReg (fn reg size : Nat) (transport : Nat → Nat → Option (List Nat)) :
    Option Nat :=
  let t := readRegRequest fn reg size
  (transport t.cmd t.nbytes).map fun resp => leUint32 (resp.take 4)

/-- The bookkeeping fields of the Dev structure that register access can
touch.  The chip-select and data pins are modelled separately with the
transport shim. -/
structure Dev where
  lastSize : Nat
  lastHeader : Nat × Nat
  currentBackplaneWindow : Nat
  lastBackplaneWindow : Nat
deriving DecidableEq

/-- State-passing form of readReg: the source method never assigns any
Dev field, so the device value is returned unchanged. -/
def readRegS (d : Dev) (fn reg size : Nat)
    (transport : Nat → Nat → Option (List Nat)) : Dev × Option Nat :=
  (d, readReg fn reg size transport)

/-- Embedding of the scratch buffer of writeReg after
binary.BigEndian.PutUint32(buf[:], val): most significant byte first. -/
def writeRegScratch (val : Nat) : List Nat :=
  [val / 2 ^ 24 % 2 ^ 8, val / 2 ^ 16 % 2 ^ 8, val / 2 ^ 8 % 2 ^ 8, val % 2 ^ 8]

/-- The byte slice buf[:size] that writeReg hands to SPIWrite. -/
def writeRegPayload (val size : Nat) : List Nat := (writeRegScratch val).take size

/-- The command word built by writeReg. -/
def writeRegCmd (fn reg size : Nat) : Nat := make_cmd true true fn reg size

/-- Embedding of writeReg over a transport oracle deciding whether the
SPIWrite call errors.  The bookkeeping assignment happens before the
transport is invoked, so the device result does not depend on the oracle. -/
def writeReg (d : Dev) (fn reg val size : Nat)
    (transport : Nat → List Nat → Bool) : Dev × Bool :=
  let cmd := writeRegCmd fn reg size
  let d2 : Dev :=
    if fn = backplaneFunction then
      { d with
        lastSize := 8
        lastHeader := (cmd, val)
        lastBackplaneWindow := d.currentBackplaneWindow }
    else d
  (d2, transport cmd (writeRegPayload val size))

/-! ## Wire image of SPIWrite (source: SPIWrite, spiWrite32,
writeU32LittleEndian) -/

/-- The four bytes produced on the wire for one 32-bit word, least
significant byte first, as writeU32LittleEndian transmits them. -/
def wordBytesLE (v : Nat) : List Nat :=
  [v % 2 ^ 8, v / 2 ^ 8 % 2 ^ 8, v / 2 ^ 16 % 2 ^ 8, v / 2 ^ 24 % 2 ^ 8]

/-- Data bytes SPIWrite places on the wire for a byte payload: the payload
is reinterpreted as len/4 little-endian 32-bit words (the trailing
len mod 4 bytes are dropped by the integer division) and each word is
retransmitted least significant byte first. -/
def spiWriteWireBytes : List Nat → List Nat
  | b0 :: b1 :: b2 :: b3 :: rest =>
      wordBytesLE (b0 + b1 * 2 ^ 8 + b2 * 2 ^ 16 + b3 * 2 ^ 24) ++
        spiWriteWireBytes rest
  | _ => []

/-- Round trip of claim C3: write val at the given width through writeReg
and SPIWrite into a simulated register store holding exactly the bytes the
driver transmits, read it back through readReg at the same width, and
truncate to the width as the RegisterRead wrappers do. -/
def roundTrip (size fn addr val : Nat) : Nat :=
  let stored := spiWriteWireBytes (writeRegPayload val size)
  let n := (readRegRequest fn addr size).nbytes
  let resp := (stored ++ List.replicate n 0).take n
  leUint32 (resp.take 4) % 2 ^ (8 * size)

/-- Little-endian observation of a big-endian serialized 32-bit value:
the byte-reversal of val. -/
def bswap32 (v : Nat) : Nat :=
  v / 2 ^ 24 % 2 ^ 8 + v / 2 ^ 16 % 2 ^ 8 * 2 ^ 8 + v / 2 ^ 8 % 2 ^ 8 * 2 ^ 16 +
    v % 2 ^ 8 * 2 ^ 24

/-! ## Bus transport shim (source: SPIRead, SPIWrite, SPIWriteRead) -/

/-- Observable pin and wire events of one bus exchange. -/
inductive PinEvent where
  | csLow
  | csHigh
  | sdOutput
  | sdInput
  | wire (bs : List Nat)
  | dataIn (n : Nat)
deriving DecidableEq

/-- Source constant: the data line is shared between directions. -/
def sharedDATA : Bool := true

/-- Embedding of spiWrite32: configures the shared data pin as output,
transmits the command word little-endian, then the payload words.  The
byte-level Transfer primitive discards its error, so the function always
returns success, exactly as writeU32LittleEndian returns nil. -/
def spiWrite32 (command : Nat) (w : List Nat) : List PinEvent × Option Unit :=
  let pre : List PinEvent := if sharedDATA then [.sdOutput] else []
  let cmdEv : List PinEvent := [.wire (wordBytesLE command)]
  let cmdErr : Option Unit := none
  if w.length = 0 ∨ cmdErr.isSome then (pre ++ cmdEv, cmdErr)
  else (pre ++ cmdEv ++ w.map fun v => .wire (wordBytesLE v), cmdErr)

/-- Embedding of SPIRead: command phase under chip select, release, shared
pin to input, second chip-select window for the response, release.  The
txErr flag is the oracle for the Tx data-phase transfer. -/
def SPIRead (command : Nat) (nbytes : Nat) (txErr : Bool) :
    List PinEvent × Option Unit :=
  let (ev, err) := spiWrite32 command []
  match err with
  | some e => ([.csLow] ++ ev ++ [.csHigh], some e)
  | none =>
      ([.csLow] ++ ev ++ [.csHigh] ++
        (if sharedDATA then [PinEvent.sdInput] else []) ++
        [.csLow, .dataIn nbytes, .csHigh],
        if txErr then some () else none)

/-- Embedding of SPIWriteRead: command phase and data phase under one
chip-select assertion.  The early return on a command-phase error does not
release chip select; that branch is kept exactly as in the source. -/
def SPIWriteRead (command : Nat) (nbytes : Nat) (txErr : Bool) :
    List PinEvent × Option Unit :=
  let (ev, err) := spiWrite32 command []
  match err with
  | some e => ([.csLow] ++ ev, some e)
  | none =>
      ([.csLow] ++ ev ++
        (if sharedDATA then [PinEvent.sdInput] else []) ++
        [.dataIn nbytes, .csHigh],
        if txErr then some () else none)

/-- Embedding of SPIWrite: whole exchange under one chip-select assertion.
Taking the address of w[0] panics for an empty payload, so the result is
only defined for nonempty w; the words handed to spiWrite32 are the len/4
leading 32-bit groups of w. -/
def SPIWrite (command : Nat) (w : List Nat) :
    Option (List PinEvent × Option Unit) :=
  if w.isEmpty then none
  else
    let words := (List.range (w.length / 4)).map fun i =>
      leUint32 ((w.drop (4 * i)).take 4)
    some ([.csLow] ++ (spiWrite32 command words).1 ++ [.csHigh],
      (spiWrite32 command words).2)

/-- Chip-select level after a list of events, given the level before;
true is the de-asserted (high) level. -/
def csAfter (init : Bool) : List PinEvent → Bool
  | [] => init
  | .csLow :: rest => csAfter false rest
  | .csHigh :: rest => csAfter true rest
  | _ :: rest => csAfter init rest

/-! ## Device bring-up (source: Init) -/

/-- One bus transaction as seen at the register access layer. -/
inductive Txn where
  | read (cmd nbytes : Nat)
  | write (cmd : Nat) (payload : List Nat)
deriving DecidableEq

/-- Source constant pollAddr of Init. -/
def pollAddr : Nat := 0x1400

/-- Source constant pollExpect of Init: little-endian observation of
0xFEEDBEAD. -/
def pollExpect : Nat := 0xADBEEDFE

/-- Source constant pollLimit, in nanoseconds: 100 milliseconds. -/
def pollLimit : Nat := 100000000

/-- The poll read transaction Init issues: a 32-bit read through
RegisterReadUint32 in bus space at pollAddr. -/
def pollTxn : Txn :=
  .read (readRegRequest FuncAllSPIRegisters pollAddr 4).cmd
    (readRegRequest FuncAllSPIRegisters pollAddr 4).nbytes

/-- Outcome of Init. -/
inductive InitResult where
  | ok
  | transportErr
  | pollFailed
deriving DecidableEq

/-- One iteration of the poll loop as driven by the environment: the value
RegisterReadUint32 returns (none models a transport error) and the elapsed
time since the poll started, sampled where the source compares against
pollLimit. -/
structure PollStep where
  resp : Option Nat
  elapsed : Nat
deriving DecidableEq

/-- Embedding of the poll loop of Init: repeat the fixed read until the
expected pattern arrives; a transport error returns immediately; a wrong
value past the deadline fails the poll.  An exhausted environment list
leaves the loop unresolved (none). -/
def initPoll : List PollStep → List Txn × Option InitResult
  | [] => ([], none)
  | s :: rest =>
      match s.resp with
      | none => ([pollTxn], some .transportErr)
      | some got =>
          if got = pollExpect then ([pollTxn], some .ok)
          else if pollLimit < s.elapsed then ([pollTxn], some .pollFailed)
          else (pollTxn :: (initPoll rest).1, (initPoll rest).2)

/-- Source value of the configuration write of Init: wake-up bit 24,
interrupt polarity bit 26, high-speed mode bit 27 cleared, endianness
bit 30 cleared, word-length bit 31 set. -/
def cfgVal : Nat :=
  1 <<< 24 ||| 1 <<< 26 ||| 0 <<< 27 ||| 0 <<< 30 ||| 1 <<< 31

/-- The configuration write transaction of Init: a 32-bit register write in
bus space at address 0. -/
def cfgTxn : Txn :=
  .write (writeRegCmd FuncAllSPIRegisters 0 4) (writeRegPayload cfgVal 4)

/-- Embedding of Init after the power-up wait: run the poll loop; only when
it observes the expected pattern issue the single configuration write,
whose error status (writeErr oracle) becomes the result of Init. -/
def Init (steps : List PollStep) (writeErr : Bool) :
    List Txn × Option InitResult :=
  match (initPoll steps).2 with
  | some InitResult.ok =>
      ((initPoll steps).1 ++ [cfgTxn],
        some (if writeErr then InitResult.transportErr else InitResult.ok))
  | r => ((initPoll steps).1, r)

/-! ## Firmware CLM extractor (source: GetCLM, align32 in the companion
file of the package) -/

/-- Embedding of align32: (val + align - 1) &^ (align - 1) over uint32,
with the Go AND NOT written as a conjunction with the 32-bit complement. -/
def align32 (val al : Nat) : Nat :=
  ((val + al - 1) % 2 ^ 32) &&& ((2 ^ 32 - 1) ^^^ (al - 1))

/-- Definition following the words of the spec: round L up to the next
multiple of al, with 0 mapping to 0. -/
def alignUpSpec (L al : Nat) : Nat := (L + al - 1) / al * al

/-- Embedding of GetCLM.  A Go slice is modelled by its data bytes and the
spare capacity bytes behind it; cap is the total backing length.  The
clmLen constant lives in a generated firmware file outside the provided
sources and is passed as a parameter; see GetCLMspec.  none models the
panic branch. -/
def GetCLM (clmLen : Nat) (data extra : List Nat) : Option (List Nat) :=
  if (data.length + extra.length) % 2 ^ 32 <
      (align32 data.length 512 + clmLen) % 2 ^ 32 then none
  else some (((data ++ extra).drop (align32 data.length 512)).take clmLen)

/-- Modelled from the spec: the missing piece of GetCLM is only the
constant clmLen, the expected length of the CLM region, defined in a
generated firmware file that is not among the provided sources; the spec
fixes no numeric value, so the embedding treats it as an arbitrary
parameter and every statement quantifies over it. -/
def GetCLMspec (clmLen : Nat) (data extra : List Nat) : Option (List Nat) :=
  GetCLM clmLen data extra

/-! ## Bit-arithmetic helper lemmas -/

theorem shiftRight_lor_distrib (x y n : Nat) :
    (x ||| y) >>> n = x >>> n ||| y >>> n := by
  apply Nat.eq_of_testBit_eq
  intro i
  simp [Nat.testBit_shiftRight, Nat.testBit_or]

theorem shiftLeft_and_mask {a : Nat} (m k : Nat) (h : k ≤ m) :
    (a <<< m) &&& (2 ^ k - 1) = 0 := by
  rw [Nat.and_pow_two_sub_one_eq_mod, Nat.shiftLeft_eq]
  have hpow : 2 ^ m = 2 ^ (m - k) * 2 ^ k := by
    rw [← Nat.pow_add]
    congr 1
    omega
  rw [hpow, ← Nat.mul_assoc, Nat.mul_mod_left]

theorem shiftRight_eq_zero {x n : Nat} (h : x < 2 ^ n) : x >>> n = 0 := by
  rw [Nat.shiftRight_eq_div_pow]
  exact Nat.div_eq_of_lt h

theorem shiftLeft_add_aux (x n k : Nat) : (x <<< n) <<< k = x <<< (n + k) := by
  rw [Nat.shiftLeft_eq, Nat.shiftLeft_eq, Nat.shiftLeft_eq, Nat.pow_add,
    Nat.mul_assoc]

theorem shiftLeft_shiftRight_of_le {x : Nat} (m n : Nat) (h : n ≤ m) :
    x <<< m >>> n = x <<< (m - n) := by
  have hm : x <<< m = (x <<< (m - n)) <<< n := by
    rw [shiftLeft_add_aux]
    congr 1
    omega
  rw [hm, Nat.shiftLeft_shiftRight]

theorem shiftLeft_shiftRight_of_ge {x : Nat} (m n : Nat) (h : m ≤ n) :
    x <<< m >>> n = x >>> (n - m) := by
  conv_lhs => rw [show n = m + (n - m) by omega]
  rw [Nat.shiftRight_add, Nat.shiftLeft_shiftRight]

theorem and_mask_eq_mod (x n : Nat) : x &&& (2 ^ n - 1) = x % 2 ^ n :=
  Nat.and_pow_two_sub_one_eq_mod x n

theorem atom_low {x m n k : Nat} (hmn : m ≤ n) (hx : x < 2 ^ (n - m)) :
    ((x <<< m) >>> n) &&& (2 ^ k - 1) = 0 := by
  rw [shiftLeft_shiftRight_of_ge m n hmn, shiftRight_eq_zero hx, Nat.zero_and]

theorem atom_high {x m n k : Nat} (hmn : n ≤ m) (hk : k ≤ m - n) :
    ((x <<< m) >>> n) &&& (2 ^ k - 1) = 0 := by
  rw [shiftLeft_shiftRight_of_le m n hmn, shiftLeft_and_mask _ _ hk]

theorem atom_exact {x n k : Nat} (hx : x < 2 ^ k) :
    ((x <<< n) >>> n) &&& (2 ^ k - 1) = x := by
  rw [Nat.shiftLeft_shiftRight, and_mask_eq_mod, Nat.mod_eq_of_lt hx]

theorem fn_term_eq {fn : Nat} (hfn : fn < 4) : (fn <<< 28) % 2 ^ 32 = fn <<< 28 := by
  apply Nat.mod_eq_of_lt
  rw [Nat.shiftLeft_eq]
  omega

theorem b2u32_lt (b : Bool) : b2u32 b < 2 := by
  cases b <;> simp [b2u32]

theorem cmdSize_make_cmd (w i : Bool) (fn addr sz : Nat) (hsz : sz < 2 ^ 11) :
    cmdSize (make_cmd w i fn addr sz) = sz := by
  unfold cmdSize make_cmd
  have hfnt : ((fn <<< 28) % 2 ^ 32) &&& (2 ^ 11 - 1) = 0 := by
    rw [and_mask_eq_mod, Nat.shiftLeft_eq]
    omega
  rw [Nat.and_distrib_right, Nat.and_distrib_right, Nat.and_distrib_right,
    Nat.and_distrib_right,
    shiftLeft_and_mask 31 11 (by omega), shiftLeft_and_mask 30 11 (by omega),
    hfnt, shiftLeft_and_mask 11 11 (by omega), and_mask_eq_mod,
    Nat.mod_eq_of_lt hsz]
  simp [Nat.zero_or]

theorem leUint32_take (resp : List Nat) : leUint32 (resp.take 4) = leUint32 resp := by
  rcases resp with _ | ⟨a, _ | ⟨b, _ | ⟨c, _ | ⟨d, t⟩⟩⟩⟩ <;> simp [leUint32]

theorem csAfter_append (b : Bool) (l1 l2 : List PinEvent) :
    csAfter b (l1 ++ l2) = csAfter (csAfter b l1) l2 := by
  induction l1 generalizing b with
  | nil => rfl
  | cons e rest ih => cases e <;> simp [csAfter, ih]

theorem leUint32_wordBytesLE (w : Nat) (hw : w < 2 ^ 32) :
    leUint32 (wordBytesLE w) = w := by
  show w % 2 ^ 8 + w / 2 ^ 8 % 2 ^ 8 * 2 ^ 8 + w / 2 ^ 16 % 2 ^ 8 * 2 ^ 16 +
    w / 2 ^ 24 % 2 ^ 8 * 2 ^ 24 = w
  omega

theorem wire_take8 (w : Nat) :
    ((wordBytesLE w ++ [0, 0, 0, 0, 0, 0, 0, 0]).take 8).take 4 =
      wordBytesLE w := rfl

theorem wire_take4 (w : Nat) :
    ((wordBytesLE w ++ [0, 0, 0, 0]).take 4).take 4 = wordBytesLE w := rfl

/-- Claim C4 (theorem): for every write flag, increment flag, function below 4,
address below two to the 17 and size below two to the 11, extracting bit 31,
bit 30, bits 28-29, bits 11-27 and bits 0-10 of the encoded command word
reproduces exactly the write flag, the increment flag, the function, the
address and the size, so the encoding is a bijection on its defined field
ranges. -/
theorem make_cmd_decode (write inc : Bool) (fn addr sz : Nat)
    (hfn : fn < 4) (haddr : addr < 2 ^ 17) (hsz : sz < 2 ^ 11) :
    cmdWriteBit (make_cmd write inc fn addr sz) = b2u32 write ∧
    cmdIncBit (make_cmd write inc fn addr sz) = b2u32 inc ∧
    cmdFn (make_cmd write inc fn addr sz) = fn ∧
    cmdAddr (make_cmd write inc fn addr sz) = addr ∧
    cmdSize (make_cmd write inc fn addr sz) = sz := by
  have hW := b2u32_lt write
  have hI := b2u32_lt inc
  have hA : addr &&& 0x1ffff = addr := by
    rw [show (0x1ffff : Nat) = 2 ^ 17 - 1 by norm_num, and_mask_eq_mod]
    exact Nat.mod_eq_of_lt haddr
  unfold make_cmd
  rw [fn_term_eq hfn, hA]
  refine ⟨?_, ?_, ?_, ?_, ?_⟩
  · unfold cmdWriteBit
    rw [shiftRight_lor_distrib, shiftRight_lor_distrib, shiftRight_lor_distrib,
      shiftRight_lor_distrib, Nat.and_distrib_right, Nat.and_distrib_right,
      Nat.and_distrib_right, Nat.and_distrib_right,
      atom_exact (show b2u32 write < 2 ^ 1 by omega),
      atom_low (show 30 ≤ 31 by omega) (show b2u32 inc < 2 ^ (31 - 30) by omega),
      atom_low (show 28 ≤ 31 by omega) (show fn < 2 ^ (31 - 28) by omega),
      atom_low (show 11 ≤ 31 by omega) (show addr < 2 ^ (31 - 11) by omega),
      shiftRight_eq_zero (show sz < 2 ^ 31 by omega), Nat.zero_and]
    simp [Nat.or_zero]
  · unfold cmdIncBit
    rw [shiftRight_lor_distrib, shiftRight_lor_distrib, shiftRight_lor_distrib,
      shiftRight_lor_distrib, Nat.and_distrib_right, Nat.and_distrib_right,
      Nat.and_distrib_right, Nat.and_distrib_right,
      atom_high (show 30 ≤ 31 by omega) (show 1 ≤ 31 - 30 by omega),
      atom_exact (show b2u32 inc < 2 ^ 1 by omega),
      atom_low (show 28 ≤ 30 by omega) (show fn < 2 ^ (30 - 28) by omega),
      atom_low (show 11 ≤ 30 by omega) (show addr < 2 ^ (30 - 11) by omega),
      shiftRight_eq_zero (show sz < 2 ^ 30 by omega), Nat.zero_and]
    simp [Nat.or_zero, Nat.zero_or]
  · unfold cmdFn
    rw [shiftRight_lor_distrib, shiftRight_lor_distrib, shiftRight_lor_distrib,
      shiftRight_lor_distrib, Nat.and_distrib_right, Nat.and_distrib_right,
      Nat.and_distrib_right, Nat.and_distrib_right,
      atom_high (show 28 ≤ 31 by omega) (show 2 ≤ 31 - 28 by omega),
      atom_high (show 28 ≤ 30 by omega) (show 2 ≤ 30 - 28 by omega),
      atom_exact (show fn < 2 ^ 2 by omega),
      atom_low (show 11 ≤ 28 by omega) (show addr < 2 ^ (28 - 11) by omega),
      shiftRight_eq_zero (show sz < 2 ^ 28 by omega), Nat.zero_and]
    simp [Nat.or_zero, Nat.zero_or]
  · unfold cmdAddr
    rw [shiftRight_lor_distrib, shiftRight_lor_distrib, shiftRight_lor_distrib,
      shiftRight_lor_distrib, Nat.and_distrib_right, Nat.and_distrib_right,
      Nat.and_distrib_right, Nat.and_distrib_right,
      atom_high (show 11 ≤ 31 by omega) (show 17 ≤ 31 - 11 by omega),
      atom_high (show 11 ≤ 30 by omega) (show 17 ≤ 30 - 11 by omega),
      atom_high (show 11 ≤ 28 by omega) (show 17 ≤ 28 - 11 by omega),
      atom_exact (show addr < 2 ^ 17 by omega),
      shiftRight_eq_zero (show sz < 2 ^ 11 by omega), Nat.zero_and]
    simp [Nat.or_zero, Nat.zero_or]
  · unfold cmdSize
    rw [Nat.and_distrib_right, Nat.and_distrib_right, Nat.and_distrib_right,
      Nat.and_distrib_right,
      shiftLeft_and_mask 31 11 (by omega), shiftLeft_and_mask 30 11 (by omega),
      shiftLeft_and_mask 28 11 (by omega), shiftLeft_and_mask 11 11 (by omega),
      and_mask_eq_mod, Nat.mod_eq_of_lt hsz]
    simp [Nat.zero_or]

/-- Closed witness for claim C4 at a concrete field assignment. -/
theorem make_cmd_decode_witness :
    cmdWriteBit (make_cmd true false 2 0x15555 0x555) = b2u32 true ∧
    cmdIncBit (make_cmd true false 2 0x15555 0x555) = b2u32 false ∧
    cmdFn (make_cmd true false 2 0x15555 0x555) = 2 ∧
    cmdAddr (make_cmd true false 2 0x15555 0x555) = 0x15555 ∧
    cmdSize (make_cmd true false 2 0x15555 0x555) = 0x555 :=
  make_cmd_decode true false 2 0x15555 0x555 (by norm_num) (by norm_num)
    (by norm_num)

/-- Claim C5 (theorem): for every address, including addresses at or above
two to the 17, make_cmd yields the same command word as it does for the low
17 bits of the address, for all write, increment, function and size
arguments: oversized addresses are silently truncated, never rejected. -/
theorem make_cmd_truncates_addr (write inc : Bool) (fn addr sz : Nat) :
    make_cmd write inc fn addr sz = make_cmd write inc fn (addr % 2 ^ 17) sz := by
  have h : addr &&& 0x1ffff = (addr % 2 ^ 17) &&& 0x1ffff := by
    rw [show (0x1ffff : Nat) = 2 ^ 17 - 1 by norm_num, and_mask_eq_mod,
      and_mask_eq_mod]
    omega
  unfold make_cmd
  rw [h]

/-- Claim C2 (counterexample): at the backplane function with size 1 the
command size field is 1+4 = 5, but the transport is asked for 8 bytes, not
size+4 = 5, and the value returned is the little-endian load of the first
four response bytes (here 513 = 0x0201), not of the first size bytes
(which would be 1). -/
theorem readReg_padding_counterexample :
    cmdSize ((readRegRequest backplaneFunction 0 1).cmd) = 5 ∧
    (readRegRequest backplaneFunction 0 1).nbytes = 8 ∧
    (8 : Nat) ≠ 1 + 4 ∧
    readReg backplaneFunction 0 1
      (fun _ _ => some [1, 2, 0, 0, 0, 0, 0, 0]) = some 513 ∧
    (513 : Nat) ≠ 1 := by
  decide

/-- Claim C2 (amended theorem): for every register read of size at most 4,
readReg adds 4 padding bytes exactly when the function space is the
backplane function; the command size field is size plus that padding; the
transport, however, is always asked for exactly 4+padding bytes (8 for the
backplane function, 4 otherwise) regardless of size, the trailing padding
bytes beyond the first four are discarded, and the returned value is the
first FOUR bytes of the response reinterpreted little-endian (the register
width truncation is left to the RegisterRead wrappers). -/
theorem readReg_amended (fn reg size : Nat) (resp : List Nat) (hs : size ≤ 4) :
    (readPadding fn = 4 ↔ fn = backplaneFunction) ∧
    (readPadding fn = 0 ↔ fn ≠ backplaneFunction) ∧
    cmdSize ((readRegRequest fn reg size).cmd) = size + readPadding fn ∧
    (readRegRequest fn reg size).nbytes = 4 + readPadding fn ∧
    readReg fn reg size (fun _ _ => some resp) =
      some (leUint32 (resp.take 4)) := by
  have hpad : readPadding fn ≤ 4 := by
    unfold readPadding whdBusSPIBackplaneReadPadding
    split <;> omega
  refine ⟨?_, ?_, ?_, rfl, rfl⟩
  · unfold readPadding whdBusSPIBackplaneReadPadding
    split <;> simp_all
  · unfold readPadding whdBusSPIBackplaneReadPadding
    split <;> simp_all
  · exact cmdSize_make_cmd false true fn reg (size + readPadding fn) (by omega)

/-- Closed witness for the amended claim C2 at size 4 in a non-backplane
function space. -/
theorem readReg_amended_witness :
    readReg 1 2 4 (fun _ _ => some [5, 6, 7, 8]) =
      some (leUint32 ([5, 6, 7, 8].take 4)) :=
  (readReg_amended 1 2 4 [5, 6, 7, 8] (by decide)).2.2.2.2

/-- Claim C6 (theorem): for every width in {1,2,4}, every function space and
every 32-bit value, writeReg serializes the value big-endian into the
4-byte scratch buffer and hands exactly the first size bytes to the
transport shim, the byte at index i being byte 3-i of the value; readReg
deserializes the transport response little-endian; hence deserializing the
full-width serialization the way the read path does yields the byte
reversal of the value. -/
theorem endianness_asymmetry (d : Dev) (fn reg val size : Nat)
    (tr : Nat → List Nat → Bool) (resp : List Nat)
    (hs : size = 1 ∨ size = 2 ∨ size = 4) :
    (writeRegPayload val size).length = size ∧
    (∀ i, i < size →
      (writeRegPayload val size).getD i 0 = val / 2 ^ (8 * (3 - i)) % 2 ^ 8) ∧
    (writeReg d fn reg val size tr).2 =
      tr (writeRegCmd fn reg size) (writeRegPayload val size) ∧
    readReg fn reg size (fun _ _ => some resp) =
      some (resp.getD 0 0 + resp.getD 1 0 * 2 ^ 8 + resp.getD 2 0 * 2 ^ 16 +
        resp.getD 3 0 * 2 ^ 24) ∧
    leUint32 (writeRegScratch val) = bswap32 val := by
  refine ⟨?_, ?_, rfl, ?_, ?_⟩
  · rcases hs with h | h | h <;> subst h <;> rfl
  · intro i hi
    rcases hs with h | h | h <;> subst h <;> interval_cases i <;>
      simp [writeRegPayload, writeRegScratch]
  · simp [readReg, readRegRequest, leUint32_take, leUint32]
  · simp [leUint32, writeRegScratch, bswap32]

/-- Closed witness for claim C6 at width 4. -/
theorem endianness_asymmetry_witness :
    leUint32 (writeRegScratch 0x11223344) = bswap32 0x11223344 :=
  (endianness_asymmetry ⟨0, (0, 0), 0, 0⟩ 0 0 0x11223344 4 (fun _ _ => false)
    [] (Or.inr (Or.inr rfl))).2.2.2.2

/-- Claim C3 (counterexample): writing the 32-bit value 1 and reading the
same function and address back through a simulated transport register
store yields 0x01000000, the byte reversal, not 1. -/
theorem roundTrip_counterexample :
    roundTrip 4 1 0 1 = 0x01000000 ∧ (0x01000000 : Nat) ≠ 1 := by
  decide

/-- Claim C3 (amended theorem): the write-then-read round trip through a
simulated register store holding exactly the transmitted wire bytes does
not return the written value: at width 32 it returns the byte reversal of
the value, and at widths 8 and 16 it returns 0, because writeReg keeps the
high-order big-endian scratch bytes and SPIWrite then drops the sub-word
remainder of the payload, so no value byte reaches the wire. -/
theorem roundTrip_amended (fn addr val : Nat) (_hv : val < 2 ^ 32) :
    roundTrip 4 fn addr val = bswap32 val ∧
    roundTrip 2 fn addr val = 0 ∧
    roundTrip 1 fn addr val = 0 := by
  have hbs : bswap32 val < 2 ^ 32 := by
    unfold bswap32
    omega
  have hstored : spiWriteWireBytes (writeRegPayload val 4) =
      wordBytesLE (bswap32 val) := rfl
  have hs2 : spiWriteWireBytes (writeRegPayload val 2) = [] := rfl
  have hs1 : spiWriteWireBytes (writeRegPayload val 1) = [] := rfl
  refine ⟨?_, ?_, ?_⟩
  · have e1 : roundTrip 4 fn addr val =
        leUint32 (wordBytesLE (bswap32 val)) % 2 ^ (8 * 4) := by
      by_cases hfn : fn = 0 <;>
        simp [roundTrip, readRegRequest, readPadding, backplaneFunction,
          whdBusSPIBackplaneReadPadding, hfn, hstored, wire_take8, wire_take4]
    rw [e1, leUint32_wordBytesLE _ hbs]
    omega
  · by_cases hfn : fn = 0 <;>
      simp [roundTrip, readRegRequest, readPadding, backplaneFunction,
        whdBusSPIBackplaneReadPadding, hfn, hs2, leUint32]
  · by_cases hfn : fn = 0 <;>
      simp [roundTrip, readRegRequest, readPadding, backplaneFunction,
        whdBusSPIBackplaneReadPadding, hfn, hs1, leUint32]

/-- Closed witness for the amended claim C3. -/
theorem roundTrip_amended_witness :
    roundTrip 4 3 7 0xCAFEBABE = bswap32 0xCAFEBABE :=
  (roundTrip_amended 3 7 0xCAFEBABE (by norm_num)).1

/-- Claim C10 (theorem): writeReg updates the bookkeeping fields (lastSize
to 8, lastHeader to the command word and the value, lastBackplaneWindow to
currentBackplaneWindow) exactly when the function equals the
backplane-function constant 0, and it does so before invoking the
transport, so the resulting device state is the same for every transport
outcome; readReg never modifies any bookkeeping field. -/
theorem bookkeeping_frame (d : Dev) (fn reg val size : Nat)
    (tr tr2 : Nat → List Nat → Bool) (rt : Nat → Nat → Option (List Nat)) :
    (fn = backplaneFunction →
      (writeReg d fn reg val size tr).1 =
        { d with
          lastSize := 8
          lastHeader := (writeRegCmd fn reg size, val)
          lastBackplaneWindow := d.currentBackplaneWindow }) ∧
    (fn ≠ backplaneFunction → (writeReg d fn reg val size tr).1 = d) ∧
    (writeReg d fn reg val size tr).1 = (writeReg d fn reg val size tr2).1 ∧
    (readRegS d fn reg size rt).1 = d := by
  by_cases hfn : fn = backplaneFunction <;>
    simp [writeReg, readRegS, hfn]

/-- Closed witness for claim C10: a backplane write with an erroring
transport still lands the bookkeeping update. -/
theorem bookkeeping_frame_witness :
    (writeReg ⟨1, (2, 3), 4, 5⟩ 0 7 9 4 (fun _ _ => true)).1 =
      { (⟨1, (2, 3), 4, 5⟩ : Dev) with
        lastSize := 8
        lastHeader := (writeRegCmd 0 7 4, 9)
        lastBackplaneWindow := (⟨1, (2, 3), 4, 5⟩ : Dev).currentBackplaneWindow } :=
  (bookkeeping_frame ⟨1, (2, 3), 4, 5⟩ 0 7 9 4 (fun _ _ => true)
    (fun _ _ => false) (fun _ _ => none)).1 rfl

/-- Claim C9 (theorem): every bus exchange leaves chip select de-asserted
at return, for every transport outcome: SPIRead and SPIWriteRead for every
command and length, and SPIWrite for every nonempty payload (an empty
payload panics on the address of w[0] before any chip-select change and
never returns).  The only structurally early return, the command-phase
error branch of SPIWriteRead, is unreachable because the command phase
discards transfer errors and always reports success. -/
theorem cs_deasserted (command nbytes : Nat) (w : List Nat) (e1 e2 : Bool)
    (hw : w ≠ []) :
    csAfter true (SPIRead command nbytes e1).1 = true ∧
    csAfter true (SPIWriteRead command nbytes e2).1 = true ∧
    (SPIWrite command w).isSome = true ∧
    (∀ tr err, SPIWrite command w = some (tr, err) → csAfter true tr = true) := by
  refine ⟨rfl, rfl, ?_, ?_⟩
  · rcases w with _ | ⟨b, t⟩
    · exact absurd rfl hw
    · simp [SPIWrite]
  · intro tr err h
    rcases w with _ | ⟨b, t⟩
    · exact absurd rfl hw
    · simp only [SPIWrite, List.isEmpty_cons, Bool.false_eq_true, if_false,
        Option.some.injEq, Prod.mk.injEq] at h
      obtain ⟨htr, _⟩ := h
      rw [← htr, csAfter_append, csAfter_append]
      rfl

/-- Closed witness for claim C9. -/
theorem cs_deasserted_witness :
    csAfter true (SPIRead 5 8 true).1 = true :=
  (cs_deasserted 5 8 [1, 2, 3, 4] true false (by decide)).1

theorem initPoll_trace (steps : List PollStep) :
    ∀ tx ∈ (initPoll steps).1, tx = pollTxn := by
  induction steps with
  | nil =>
      intro tx h
      simp [initPoll] at h
  | cons s rest ih =>
      intro tx h
      rcases hs : s.resp with _ | got
      · simp [initPoll, hs] at h
        exact h
      · by_cases hgot : got = pollExpect
        · simp [initPoll, hs, hgot] at h
          exact h
        · by_cases hel : pollLimit < s.elapsed
          · simp [initPoll, hs, hgot, hel] at h
            exact h
          · simp [initPoll, hs, hgot, hel] at h
            rcases h with h | h
            · exact h
            · exact ih tx h

theorem initPoll_ok_pattern (steps : List PollStep)
    (h : (initPoll steps).2 = some InitResult.ok) :
    ∃ s ∈ steps, s.resp = some pollExpect := by
  induction steps with
  | nil => simp [initPoll] at h
  | cons s rest ih =>
      rcases hs : s.resp with _ | got
      · simp [initPoll, hs] at h
      · by_cases hgot : got = pollExpect
        · exact ⟨s, by simp, by rw [hs, hgot]⟩
        · by_cases hel : pollLimit < s.elapsed
          · simp [initPoll, hs, hgot, hel] at h
          · simp only [initPoll, hs, hgot, if_false, hel, if_neg] at h
            obtain ⟨t, ht, hres⟩ := ih h
            exact ⟨t, by simp [ht], hres⟩

theorem initPoll_pollFailed_deadline (steps : List PollStep)
    (h : (initPoll steps).2 = some InitResult.pollFailed) :
    ∃ s ∈ steps, pollLimit < s.elapsed := by
  induction steps with
  | nil => simp [initPoll] at h
  | cons s rest ih =>
      rcases hs : s.resp with _ | got
      · simp [initPoll, hs] at h
      · by_cases hgot : got = pollExpect
        · simp [initPoll, hs, hgot] at h
        · by_cases hel : pollLimit < s.elapsed
          · exact ⟨s, by simp, hel⟩
          · simp only [initPoll, hs, hgot, if_false, hel, if_neg] at h
            obtain ⟨t, ht, hres⟩ := ih h
            exact ⟨t, by simp [ht], hres⟩

theorem initPoll_keeps_polling (steps : List PollStep)
    (h : ∀ s ∈ steps, s.elapsed ≤ pollLimit ∧
      ∃ v, s.resp = some v ∧ v ≠ pollExpect) :
    (initPoll steps).2 = none := by
  induction steps with
  | nil => rfl
  | cons s rest ih =>
      obtain ⟨hel, v, hv, hvne⟩ := h s (by simp)
      have hrest : (initPoll rest).2 = none := ih fun t ht => h t (by simp [ht])
      simp [initPoll, hv, hvne, Nat.not_lt.mpr hel, hrest]

theorem pollTxn_ne_cfgTxn : pollTxn ≠ cfgTxn := by
  decide

theorem Init_fst (steps : List PollStep) (writeErr : Bool) :
    (Init steps writeErr).1 =
      if (initPoll steps).2 = some InitResult.ok then
        (initPoll steps).1 ++ [cfgTxn]
      else (initPoll steps).1 := by
  unfold Init
  rcases hq : (initPoll steps).2 with _ | r
  · simp
  · cases r <;> simp

theorem Init_snd (steps : List PollStep) (writeErr : Bool) :
    (Init steps writeErr).2 =
      match (initPoll steps).2 with
      | some InitResult.ok =>
          some (if writeErr then InitResult.transportErr else InitResult.ok)
      | r => r := by
  unfold Init
  rcases hq : (initPoll steps).2 with _ | r
  · rfl
  · cases r <;> rfl

/-- Claim C1 (counterexample): in the run where the very first poll read
returns the expected pattern 0xADBEEDFE, the poll read Init issues carries
command address field 0x1400 (the source constant pollAddr), not 0x14 as
the claim states. -/
theorem init_pollAddr_counterexample :
    (Init [⟨some pollExpect, 0⟩] false).1 =
      [Txn.read (make_cmd false true 0 0x1400 8) 8, cfgTxn] ∧
    cmdAddr (make_cmd false true 0 0x1400 8) = 0x1400 ∧
    cmdAddr (make_cmd false true 0 0x1400 8) ≠ 0x14 := by
  decide

/-- Claim C1 (amended theorem): after the post-power-up wait, Init
repeatedly issues the same 32-bit register read in bus space at probe
address 0x1400 (the byte-swapped observation of 0x14) until the returned
value equals 0xADBEEDFE; every transaction it performs is that poll read
or the configuration write; when the bounded 100 ms poll deadline elapses
without the pattern, Init returns the poll-failed error, which is distinct
from the transport error, and the configuration write is never issued; the
configuration write appears only when some poll read returned the
expected pattern; and while reads keep returning other values within the
deadline the loop keeps polling. -/
theorem init_poll_amended (steps : List PollStep) (writeErr : Bool) :
    (∀ tx ∈ (Init steps writeErr).1, tx = pollTxn ∨ tx = cfgTxn) ∧
    pollTxn = Txn.read (make_cmd false true FuncAllSPIRegisters 0x1400 8) 8 ∧
    ((Init steps writeErr).2 = some InitResult.pollFailed →
      InitResult.pollFailed ≠ InitResult.transportErr ∧
      cfgTxn ∉ (Init steps writeErr).1 ∧
      ∃ s ∈ steps, pollLimit < s.elapsed) ∧
    (cfgTxn ∈ (Init steps writeErr).1 →
      ∃ s ∈ steps, s.resp = some pollExpect) ∧
    ((∀ s ∈ steps, s.elapsed ≤ pollLimit ∧
        ∃ v, s.resp = some v ∧ v ≠ pollExpect) →
      (Init steps writeErr).2 = none ∧ cfgTxn ∉ (Init steps writeErr).1) := by
  refine ⟨?_, rfl, ?_, ?_, ?_⟩
  · intro tx htx
    rw [Init_fst] at htx
    by_cases hq : (initPoll steps).2 = some InitResult.ok
    · rw [if_pos hq] at htx
      rcases List.mem_append.mp htx with h | h
      · exact Or.inl (initPoll_trace steps tx h)
      · exact Or.inr (by simpa using h)
    · rw [if_neg hq] at htx
      exact Or.inl (initPoll_trace steps tx htx)
  · intro hres
    rw [Init_snd] at hres
    have hr : (initPoll steps).2 = some InitResult.pollFailed := by
      rcases hq : (initPoll steps).2 with _ | r
      · rw [hq] at hres
        exact absurd hres (by simp)
      · cases r
        · rw [hq] at hres
          exfalso
          cases writeErr <;> simp at hres
        · rw [hq] at hres
          exact absurd hres (by simp)
        · rfl
    refine ⟨by simp, ?_, initPoll_pollFailed_deadline steps hr⟩
    rw [Init_fst, if_neg (by simp [hr])]
    intro hmem
    exact pollTxn_ne_cfgTxn (initPoll_trace steps cfgTxn hmem).symm
  · intro hmem
    rw [Init_fst] at hmem
    by_cases hq : (initPoll steps).2 = some InitResult.ok
    · exact initPoll_ok_pattern steps hq
    · rw [if_neg hq] at hmem
      exact absurd (initPoll_trace steps cfgTxn hmem).symm pollTxn_ne_cfgTxn
  · intro hkeep
    have hr : (initPoll steps).2 = none := initPoll_keeps_polling steps hkeep
    constructor
    · rw [Init_snd, hr]
    · rw [Init_fst, if_neg (by simp [hr])]
      intro hmem
      exact pollTxn_ne_cfgTxn (initPoll_trace steps cfgTxn hmem).symm

/-- Closed witness for the amended claim C1: a run whose second step
exceeds the deadline with a wrong value fails the poll and never writes. -/
theorem init_poll_amended_witness :
    cfgTxn ∉ (Init [⟨some 7, 0⟩, ⟨some 7, 200000000⟩] false).1 :=
  ((init_poll_amended [⟨some 7, 0⟩, ⟨some 7, 200000000⟩] false).2.2.1
    (by decide)).2.1

/-- Claim C7 (theorem): when the handshake poll succeeds, Init issues
exactly one register write, as its final bus transaction: a 32-bit write
(size field 4) in function space 0 at address 0x0, whose value has bit 24
(wake-up) set, bit 26 (interrupt polarity) set, bit 27 (high-speed mode)
clear, bit 30 (endianness) clear and bit 31 (word length) set; every
earlier transaction is the poll read, and Init returns the error status of
that write. -/
theorem init_config_write (steps : List PollStep) (writeErr : Bool)
    (hok : (initPoll steps).2 = some InitResult.ok) :
    (Init steps writeErr).1 = (initPoll steps).1 ++ [cfgTxn] ∧
    (∀ tx ∈ (initPoll steps).1, tx = pollTxn) ∧
    cfgTxn = Txn.write (make_cmd true true 0 0 4) (writeRegPayload cfgVal 4) ∧
    cmdFn (make_cmd true true 0 0 4) = 0 ∧
    cmdAddr (make_cmd true true 0 0 4) = 0 ∧
    cmdSize (make_cmd true true 0 0 4) = 4 ∧
    Nat.testBit cfgVal 24 = true ∧
    Nat.testBit cfgVal 26 = true ∧
    Nat.testBit cfgVal 27 = false ∧
    Nat.testBit cfgVal 30 = false ∧
    Nat.testBit cfgVal 31 = true ∧
    (Init steps writeErr).2 =
      some (if writeErr then InitResult.transportErr else InitResult.ok) := by
  refine ⟨?_, initPoll_trace steps, by decide, by decide, by decide, by decide,
    by decide, by decide, by decide, by decide, by decide, ?_⟩
  · rw [Init_fst, if_pos hok]
  · rw [Init_snd, hok]

/-- Closed witness for claim C7. -/
theorem init_config_write_witness :
    (Init [⟨some pollExpect, 0⟩] true).1 =
      (initPoll [⟨some pollExpect, 0⟩]).1 ++ [cfgTxn] :=
  (init_config_write [⟨some pollExpect, 0⟩] true (by decide)).1

theorem and_not_low (x k : Nat) (hx : x < 2 ^ 32) (hk : k ≤ 32) :
    x &&& ((2 ^ 32 - 1) ^^^ (2 ^ k - 1)) = x / 2 ^ k * 2 ^ k := by
  have hrhs : x / 2 ^ k * 2 ^ k = (x >>> k) <<< k := by
    rw [Nat.shiftLeft_eq, Nat.shiftRight_eq_div_pow]
  rw [hrhs]
  apply Nat.eq_of_testBit_eq
  intro i
  rw [Nat.testBit_and, Nat.testBit_xor, Nat.testBit_two_pow_sub_one,
    Nat.testBit_two_pow_sub_one, Nat.testBit_shiftLeft, Nat.testBit_shiftRight]
  by_cases hik : i < k
  · have h1 : ¬ k ≤ i := by omega
    have h2 : i < 32 := by omega
    simp [hik, h1, h2]
  · have hki : k ≤ i := by omega
    have he : k + (i - k) = i := by omega
    by_cases hi32 : i < 32
    · simp [hik, hi32, hki, he]
    · have hxi : x.testBit i = false :=
        Nat.testBit_lt_two_pow
          (lt_of_lt_of_le hx (Nat.pow_le_pow_right (by norm_num) (by omega)))
      simp [hik, hi32, hki, he, hxi]

theorem align32_512 (L : Nat) (h : L + 511 < 2 ^ 32) :
    align32 L 512 = alignUpSpec L 512 := by
  unfold align32 alignUpSpec
  have e1 : L + 512 - 1 = L + 511 := by omega
  rw [e1, Nat.mod_eq_of_lt h,
    show (512 : Nat) - 1 = 2 ^ 9 - 1 by norm_num,
    and_not_low _ 9 h (by norm_num)]
  norm_num

/-- Claim C8 (theorem): GetCLM returns the clmLen-byte subrange of the
firmware backing buffer starting at offset alignUp(len(firmware), 512),
where align32 agrees with rounding up to the next multiple of 512 and maps
0 to 0 (offsets 0,512,512,512,1024,1024 for lengths 0,1,511,512,513,1024),
and it panics exactly when the backing capacity is smaller than
offset + clmLen. -/
theorem GetCLM_contract (clmLen : Nat) (data extra : List Nat)
    (h1 : data.length + 511 < 2 ^ 32)
    (h2 : alignUpSpec data.length 512 + clmLen < 2 ^ 32)
    (h3 : data.length + extra.length < 2 ^ 32) :
    (GetCLM clmLen data extra = none ↔
      data.length + extra.length < alignUpSpec data.length 512 + clmLen) ∧
    (alignUpSpec data.length 512 + clmLen ≤ data.length + extra.length →
      GetCLM clmLen data extra =
        some (((data ++ extra).drop (alignUpSpec data.length 512)).take clmLen)) ∧
    align32 data.length 512 = alignUpSpec data.length 512 ∧
    align32 0 512 = 0 ∧ align32 1 512 = 512 ∧ align32 511 512 = 512 ∧
    align32 512 512 = 512 ∧ align32 513 512 = 1024 ∧
    align32 1024 512 = 1024 := by
  have ha : align32 data.length 512 = alignUpSpec data.length 512 :=
    align32_512 data.length h1
  have hcap : (data.length + extra.length) % 2 ^ 32 =
      data.length + extra.length := Nat.mod_eq_of_lt h3
  have hoff : (align32 data.length 512 + clmLen) % 2 ^ 32 =
      alignUpSpec data.length 512 + clmLen := by
    rw [ha]
    exact Nat.mod_eq_of_lt h2
  refine ⟨?_, ?_, ha, by decide, by decide, by decide, by decide, by decide,
    by decide⟩
  · unfold GetCLM
    rw [hcap, hoff]
    by_cases hlt : data.length + extra.length <
        alignUpSpec data.length 512 + clmLen
    · simp [hlt]
    · simp [hlt]
  · intro hge
    unfold GetCLM
    rw [hcap, hoff, ha]
    simp [Nat.not_lt.mpr hge]

/-- Closed witness for claim C8: an empty firmware slice with no spare
capacity cannot hold a 4-byte CLM region, so extraction panics. -/
theorem GetCLM_contract_witness :
    GetCLM 4 [] [] = none :=
  ((GetCLM_contract 4 [] [] (by norm_num) (by norm_num [alignUpSpec])
    (by norm_num)).1).mpr (by norm_num [alignUpSpec])

end Cyw43439
